import Mathlib

/-!
Verification development for the go-pos point-of-sale backend
(github.com/nikhil-shrestha/go-pos).

We shallowly embed the service layer (`OrderService.CreateOrder`,
`OrderService.GetOrder`, `CategoryService.UpdateCategory`) and the
pagination offset computation of `PaymentRepository.ListPayments`.

Modelling conventions:
* Go `float64` money amounts are modelled as `ℚ` (the claims under study
  are about control flow and the algebraic shape of the computed totals,
  not about IEEE-754 rounding).
* Go `uint64` identifiers are modelled as `Nat`; `int64` quantities and
  stock as `Int`; the one place where unsigned wraparound matters
  (`ListPayments`' offset) is modelled with explicit `% 2^64`.
* External collaborators (the per-entity repositories, the cache and the
  serialization codec) are modelled as a record `Env` of pure functions
  returning `Except`; each call the service issues is additionally logged
  in an effect trace, so frame claims ("no write happened") are statements
  about the trace of an execution.
* Repository errors are `RepoErr` (notFound / conflict / other); the
  service maps them to the domain error vocabulary `DomainErr` exactly as
  the Go code does with its `err == domain.ErrX` comparisons.
-/

/-- Errors an external repository call can report, as distinguished by the
service code (`domain.ErrDataNotFound`, `domain.ErrConflictingData`,
anything else). -/
inductive RepoErr where
  | notFound
  | conflict
  | other
  deriving DecidableEq, Repr

/-- The domain error vocabulary of `internal/core/domain`. -/
inductive DomainErr where
  | dataNotFound
  | internal
  | insufficientStock
  | insufficientPayment
  | noUpdatedData
  | conflictingData
  deriving DecidableEq, Repr

/-- The `domain.Category` entity: the fields the embedded services read. -/
structure Category where
  id : Nat
  name : String
  deriving DecidableEq, Repr

/-- The `domain.Product` entity: the fields the embedded services read; `category` is
the enrichment pointer (`nil` ↦ `none`). -/
structure Product where
  id : Nat
  categoryID : Nat
  name : String
  stock : Int
  price : ℚ
  category : Option Category := none
  deriving DecidableEq, Repr

/-- The `domain.User` entity: only the identity matters to the embedded flows. -/
structure User where
  id : Nat
  deriving DecidableEq, Repr

/-- The `domain.Payment` entity: only the identity matters to the embedded flows. -/
structure Payment where
  id : Nat
  deriving DecidableEq, Repr

/-- The `domain.OrderProduct` entity: one line item of an order. -/
structure OrderProduct where
  productID : Nat
  quantity : Int
  totalPrice : ℚ := 0
  product : Option Product := none
  deriving DecidableEq, Repr

/-- The `domain.Order` entity. -/
structure Order where
  id : Nat
  userID : Nat
  paymentID : Nat
  products : List OrderProduct
  totalPrice : ℚ := 0
  totalPaid : ℚ := 0
  totalReturn : ℚ := 0
  user : Option User := none
  payment : Option Payment := none
  deriving DecidableEq, Repr

/-- One external call issued by a service method.  Read calls and write
calls are both recorded; the product-repository write constructors exist
because `port.ProductRepository` offers them (`CreateProduct`,
`UpdateProduct`, `DeleteProduct`), so that frame claims about the product
store are meaningful statements rather than vacuities. -/
inductive Effect where
  | getProductE (id : Nat)
  | createOrderE (o : Order)
  | getUserE (id : Nat)
  | getPaymentE (id : Nat)
  | getCategoryE (id : Nat)
  | getOrderE (id : Nat)
  | cacheGetE (key : String)
  | cacheSetE (key : String) (ttl : Nat)
  | cacheDeleteE (key : String)
  | cacheDeleteByPrefixE (pat : String)
  | updateCategoryE (c : Category)
  | createProductE (p : Product)
  | updateProductE (p : Product)
  | deleteProductE (id : Nat)
  deriving DecidableEq, Repr

/-- Whether an effect mutates the backing store or the cache. -/
def Effect.isWrite : Effect → Bool
  | .createOrderE _ => true
  | .cacheSetE _ _ => true
  | .cacheDeleteE _ => true
  | .cacheDeleteByPrefixE _ => true
  | .updateCategoryE _ => true
  | .createProductE _ => true
  | .updateProductE _ => true
  | .deleteProductE _ => true
  | _ => false

/-- Whether an effect is a write to the product repository. -/
def Effect.isProductWrite : Effect → Bool
  | .createProductE _ => true
  | .updateProductE _ => true
  | .deleteProductE _ => true
  | _ => false

/-- The store/cache mutations contained in a trace. -/
def writesOf (tr : List Effect) : List Effect :=
  tr.filter Effect.isWrite

/-- Semantics of a single effect on the product table (id ↦ product):
only the three product-repository writes change it. -/
def applyProductWrite (ps : Nat → Option Product) : Effect → (Nat → Option Product)
  | .createProductE p => fun i => if i = p.id then some p else ps i
  | .updateProductE p => fun i => if i = p.id then some p else ps i
  | .deleteProductE j => fun i => if i = j then none else ps i
  | _ => ps

/-- The external collaborators of the services, as pure functions: the
per-entity repositories, the cache, and the serialization codec.  An
execution of a service method is deterministic relative to an `Env`. -/
structure Env where
  getProduct : Nat → Except RepoErr Product
  createOrderRepo : Order → Except RepoErr Order
  getUser : Nat → Except RepoErr User
  getPayment : Nat → Except RepoErr Payment
  getCategory : Nat → Except RepoErr Category
  getOrderRepo : Nat → Except RepoErr Order
  updateCategoryRepo : Category → Except RepoErr Category
  cacheGet : String → Except Unit String
  cacheSet : String → String → Nat → Except Unit Unit
  cacheDelete : String → Except Unit Unit
  cacheDeleteByPrefixCall : String → Except Unit Unit
  serializeOrder : Order → Except Unit String
  deserializeOrder : String → Except Unit Order
  serializeCategory : Category → Except Unit String

/-- Modelled from the spec: `util.GenerateCacheKey` is not under `src/`
(only its call sites are); spec §6 fixes the key scheme
`"<entity>:<id>"` for single entities. -/
def GenerateCacheKey (ent : String) (id : Nat) : String :=
  ent ++ ":" ++ toString id

/-- The validation pass of `OrderService.CreateOrder` (part_000 lines
184–199): for each line item fetch the product, map fetch errors, fail
with `insufficientStock` when `product.Stock < orderProduct.Quantity`,
otherwise write `product.Price * float64(quantity)` into the line item's
`TotalPrice` in place and accumulate it.  Returns the line items as the
loop leaves them (processed items mutated, the failing item and its
successors untouched), the accumulated total, the error the loop stops
with (if any), and the trace of product fetches. -/
structure ValidationOut where
  items : List OrderProduct
  total : ℚ
  err : Option DomainErr
  trace : List Effect
  deriving DecidableEq, Repr

/-- The body of the validation pass; see `ValidationOut` for what is
returned. -/
def processItems (env : Env) : List OrderProduct → ValidationOut
  | [] => ⟨[], 0, none, []⟩
  | it :: rest =>
    match env.getProduct it.productID with
    | .error .notFound => ⟨it :: rest, 0, some .dataNotFound, [.getProductE it.productID]⟩
    | .error _ => ⟨it :: rest, 0, some .internal, [.getProductE it.productID]⟩
    | .ok p =>
      if p.stock < it.quantity then
        ⟨it :: rest, 0, some .insufficientStock, [.getProductE it.productID]⟩
      else
        let v := processItems env rest
        ⟨{ it with totalPrice := p.price * (it.quantity : ℚ) } :: v.items,
         p.price * (it.quantity : ℚ) + v.total, v.err, .getProductE it.productID :: v.trace⟩

/-- The enrichment pass of `OrderService.CreateOrder` (part_000 lines
232–251, also reused verbatim by `GetOrder` and `ListOrders`): for each
line item re-fetch the product, fetch its category, attach both. -/
def enrichItems (env : Env) : List OrderProduct → Except DomainErr (List OrderProduct) × List Effect
  | [] => (.ok [], [])
  | it :: rest =>
    match env.getProduct it.productID with
    | .error .notFound => (.error .dataNotFound, [.getProductE it.productID])
    | .error _ => (.error .internal, [.getProductE it.productID])
    | .ok p =>
      match env.getCategory p.categoryID with
      | .error .notFound => (.error .dataNotFound, [.getProductE it.productID, .getCategoryE p.categoryID])
      | .error _ => (.error .internal, [.getProductE it.productID, .getCategoryE p.categoryID])
      | .ok c =>
        let it' := { it with product := some { p with category := some c } }
        match enrichItems env rest with
        | (.ok rest', tr) => (.ok (it' :: rest'), .getProductE it.productID :: .getCategoryE p.categoryID :: tr)
        | (.error e, tr) => (.error e, .getProductE it.productID :: .getCategoryE p.categoryID :: tr)

deriving instance DecidableEq for Except

/-- The outcome of a `CreateOrder` run: the returned value or error, the
caller's argument order as the service itself has mutated it by the time
it hands it to the order repository (the in-place line-item `TotalPrice`
writes and the `TotalPrice`/`TotalReturn` field writes of part_000 lines
197 and 205–206), and the trace of external calls. -/
structure CreateResult where
  result : Except DomainErr Order
  caller : Order
  trace : List Effect
  deriving DecidableEq, Repr

/-- The service method `OrderService.CreateOrder` (part_000 lines 182–270), transcribed
branch by branch: validation pass, payment-sufficiency check, totals,
order-repository write (any error ↦ `internal`), user and payment
enrichment, per-item product/category enrichment, cache prefix delete of
`"orders:*"`, serialization, cache set with TTL 0. -/
def CreateOrder (env : Env) (order : Order) : CreateResult :=
  let v := processItems env order.products
  let caller1 : Order := { order with products := v.items }
  match v.err with
  | some e => ⟨.error e, caller1, v.trace⟩
  | none =>
    if caller1.totalPaid < v.total then
      ⟨.error .insufficientPayment, caller1, v.trace⟩
    else
      let caller2 : Order :=
        { caller1 with totalPrice := v.total, totalReturn := caller1.totalPaid - v.total }
      let tr2 := v.trace ++ [.createOrderE caller2]
      match env.createOrderRepo caller2 with
        | .error _ => ⟨.error .internal, caller2, tr2⟩
        | .ok order2 =>
          let tr3 := tr2 ++ [.getUserE order2.userID]
          match env.getUser order2.userID with
          | .error .notFound => ⟨.error .dataNotFound, caller2, tr3⟩
          | .error _ => ⟨.error .internal, caller2, tr3⟩
          | .ok user =>
            let tr4 := tr3 ++ [.getPaymentE order2.paymentID]
            match env.getPayment order2.paymentID with
            | .error .notFound => ⟨.error .dataNotFound, caller2, tr4⟩
            | .error _ => ⟨.error .internal, caller2, tr4⟩
            | .ok payment =>
              let order3 : Order := { order2 with user := some user, payment := some payment }
              match enrichItems env order3.products with
              | (.error e, tre) => ⟨.error e, caller2, tr4 ++ tre⟩
              | (.ok items2, tre) =>
                let order4 : Order := { order3 with products := items2 }
                let tr5 := tr4 ++ tre ++ [.cacheDeleteByPrefixE "orders:*"]
                match env.cacheDeleteByPrefixCall "orders:*" with
                | .error _ => ⟨.error .internal, caller2, tr5⟩
                | .ok _ =>
                  let cacheKey := GenerateCacheKey "order" order4.id
                  match env.serializeOrder order4 with
                  | .error _ => ⟨.error .internal, caller2, tr5⟩
                  | .ok bytes =>
                    let tr6 := tr5 ++ [.cacheSetE cacheKey 0]
                    match env.cacheSet cacheKey bytes 0 with
                    | .error _ => ⟨.error .internal, caller2, tr6⟩
                    | .ok _ => ⟨.ok order4, caller2, tr6⟩

/-- The service method `OrderService.GetOrder` (part_000 lines 273–345), transcribed branch
by branch: cache-first read; on a cache hit deserialize and return (a
deserialization failure is `internal`, with no repository fallback); on
any cache-get error fall back to the order repository, enrich with user,
payment and per-item product/category, serialize and repopulate the cache
with TTL 0. -/
def GetOrder (env : Env) (id : Nat) : Except DomainErr Order × List Effect :=
  let cacheKey := GenerateCacheKey "order" id
  match env.cacheGet cacheKey with
  | .ok cached =>
    match env.deserializeOrder cached with
    | .error _ => (.error .internal, [.cacheGetE cacheKey])
    | .ok order => (.ok order, [.cacheGetE cacheKey])
  | .error _ =>
    let tr1 : List Effect := [.cacheGetE cacheKey, .getOrderE id]
    match env.getOrderRepo id with
    | .error .notFound => (.error .dataNotFound, tr1)
    | .error _ => (.error .internal, tr1)
    | .ok order =>
      let tr2 := tr1 ++ [.getUserE order.userID]
      match env.getUser order.userID with
      | .error .notFound => (.error .dataNotFound, tr2)
      | .error _ => (.error .internal, tr2)
      | .ok user =>
        let tr3 := tr2 ++ [.getPaymentE order.paymentID]
        match env.getPayment order.paymentID with
        | .error .notFound => (.error .dataNotFound, tr3)
        | .error _ => (.error .internal, tr3)
        | .ok payment =>
          let order2 : Order := { order with user := some user, payment := some payment }
          match enrichItems env order2.products with
          | (.error e, tre) => (.error e, tr3 ++ tre)
          | (.ok items2, tre) =>
            let order3 : Order := { order2 with products := items2 }
            match env.serializeOrder order3 with
            | .error _ => (.error .internal, tr3 ++ tre)
            | .ok bytes =>
              let tr4 := tr3 ++ tre ++ [.cacheSetE cacheKey 0]
              match env.cacheSet cacheKey bytes 0 with
              | .error _ => (.error .internal, tr4)
              | .ok _ => (.ok order3, tr4)

/-- The service method `CategoryService.UpdateCategory` (part_001 lines 129–175), transcribed
branch by branch: read the stored category (NotFound propagates, others
become `internal`); return `noUpdatedData` when the incoming name is empty
or equal to the stored name; otherwise write through the repository
(conflict propagates as `conflictingData`, others become `internal`),
delete the entity cache key, re-serialize and re-set it with TTL 0, and
delete the `"categories:*"` collection prefix. -/
def UpdateCategory (env : Env) (category : Category) : Except DomainErr Category × List Effect :=
  let tr1 : List Effect := [.getCategoryE category.id]
  match env.getCategory category.id with
  | .error .notFound => (.error .dataNotFound, tr1)
  | .error _ => (.error .internal, tr1)
  | .ok existingCategory =>
    let emptyData := category.name == ""
    let sameData := existingCategory.name == category.name
    if emptyData || sameData then
      (.error .noUpdatedData, tr1)
    else
      let tr2 := tr1 ++ [.updateCategoryE category]
      match env.updateCategoryRepo category with
      | .error .conflict => (.error .conflictingData, tr2)
      | .error _ => (.error .internal, tr2)
      | .ok _ =>
        let cacheKey := GenerateCacheKey "category" category.id
        let tr3 := tr2 ++ [.cacheDeleteE cacheKey]
        match env.cacheDelete cacheKey with
        | .error _ => (.error .internal, tr3)
        | .ok _ =>
          match env.serializeCategory category with
          | .error _ => (.error .internal, tr3)
          | .ok bytes =>
            let tr4 := tr3 ++ [.cacheSetE cacheKey 0]
            match env.cacheSet cacheKey bytes 0 with
            | .error _ => (.error .internal, tr4)
            | .ok _ =>
              let tr5 := tr4 ++ [.cacheDeleteByPrefixE "categories:*"]
              match env.cacheDeleteByPrefixCall "categories:*" with
              | .error _ => (.error .internal, tr5)
              | .ok _ => (.ok category, tr5)

/-- Subtraction of Go `uint64` values: `a - b` wrapping modulo `2^64`. -/
def usub64 (a b : Nat) : Nat :=
  (((a : Int) - (b : Int)) % ((2 : Int) ^ 64)).toNat

/-- Multiplication of Go `uint64` values, wrapping modulo `2^64`. -/
def umul64 (a b : Nat) : Nat :=
  (a * b) % 2 ^ 64

/-- The OFFSET computed by `PaymentRepository.ListPayments`
(payment.go line 99): `Offset((skip - 1) * limit)` in `uint64`
arithmetic. -/
def ListPaymentsOffset (skip limit : Nat) : Nat :=
  umul64 (usub64 skip 1) limit

/-- The in-place pricing the validation pass applies to a line item whose
product fetch succeeds. -/
def priceItem (env : Env) (it : OrderProduct) : OrderProduct :=
  match env.getProduct it.productID with
  | .ok p => { it with totalPrice := p.price * (it.quantity : ℚ) }
  | .error _ => it

/-- A line item passes the validation pass: its product fetch succeeds
and the requested quantity does not exceed the stock. -/
def passes (env : Env) (it : OrderProduct) : Prop :=
  ∃ p, env.getProduct it.productID = .ok p ∧ ¬ p.stock < it.quantity

lemma processItems_trace_read (env : Env) (items : List OrderProduct) :
    ∀ e ∈ (processItems env items).trace, ∃ i, e = .getProductE i := by
  induction items with
  | nil => simp [processItems]
  | cons it rest ih =>
    intro e he
    unfold processItems at he
    cases h : env.getProduct it.productID with
    | error err =>
      cases err <;> simp_all
    | ok p =>
      by_cases hs : p.stock < it.quantity
      · simp_all
      · simp only [h, hs, if_false] at he
        simp only [List.mem_cons] at he
        rcases he with he | he
        · exact ⟨_, he⟩
        · exact ih e he

lemma processItems_writes (env : Env) (items : List OrderProduct) :
    writesOf (processItems env items).trace = [] := by
  have h := processItems_trace_read env items
  unfold writesOf
  rw [List.filter_eq_nil_iff]
  intro e he
  rcases h e he with ⟨i, rfl⟩
  simp [Effect.isWrite]

lemma processItems_ok (env : Env) (items : List OrderProduct)
    (h : (processItems env items).err = none) :
    (processItems env items).items = items.map (priceItem env)
    ∧ (processItems env items).total
        = (items.map fun it => (priceItem env it).totalPrice).sum
    ∧ ∀ it ∈ items, passes env it := by
  induction items with
  | nil => simp [processItems]
  | cons it rest ih =>
    unfold processItems at h ⊢
    cases hg : env.getProduct it.productID with
    | error err => cases err <;> simp_all
    | ok p =>
      by_cases hs : p.stock < it.quantity
      · simp_all
      · simp only [hg, hs, if_false] at h ⊢
        obtain ⟨h1, h2, h3⟩ := ih h
        refine ⟨?_, ?_, ?_⟩
        · simp [h1, priceItem, hg]
        · simp [h2, priceItem, hg]
        · intro x hx
          rcases List.mem_cons.mp hx with rfl | hx
          · exact ⟨p, hg, hs⟩
          · exact h3 x hx

lemma processItems_allPass (env : Env) (items : List OrderProduct)
    (h : ∀ it ∈ items, passes env it) :
    (processItems env items).err = none := by
  induction items with
  | nil => simp [processItems]
  | cons it rest ih =>
    obtain ⟨p, hg, hs⟩ := h it (List.mem_cons_self it rest)
    unfold processItems
    simp only [hg, hs, if_false]
    exact ih fun x hx => h x (List.mem_cons_of_mem it hx)

lemma processItems_stockFail (env : Env) (items : List OrderProduct)
    (hall : ∀ it ∈ items, ∃ p, env.getProduct it.productID = .ok p)
    (hex : ∃ it ∈ items, ∀ p, env.getProduct it.productID = .ok p → p.stock < it.quantity) :
    (processItems env items).err = some .insufficientStock := by
  induction items with
  | nil => simp at hex
  | cons it rest ih =>
    obtain ⟨p, hg⟩ := hall it (List.mem_cons_self it rest)
    unfold processItems
    by_cases hs : p.stock < it.quantity
    · simp [hg, hs]
    · simp only [hg, hs, if_false]
      rcases hex with ⟨x, hx, hfail⟩
      rcases List.mem_cons.mp hx with rfl | hx
      · exact absurd (hfail p hg) hs
      · exact ih (fun y hy => hall y (List.mem_cons_of_mem it hy)) ⟨x, hx, hfail⟩

lemma processItems_cons_ok (env : Env) (it : OrderProduct) (rest : List OrderProduct)
    (p : Product) (hg : env.getProduct it.productID = .ok p) (hs : ¬ p.stock < it.quantity) :
    processItems env (it :: rest)
      = ⟨priceItem env it :: (processItems env rest).items,
         (priceItem env it).totalPrice + (processItems env rest).total,
         (processItems env rest).err,
         .getProductE it.productID :: (processItems env rest).trace⟩ := by
  rw [processItems]
  simp [hg, hs, priceItem]

lemma processItems_append_ok (env : Env) (pre rest : List OrderProduct)
    (hpre : ∀ it ∈ pre, passes env it) :
    processItems env (pre ++ rest)
      = ⟨pre.map (priceItem env) ++ (processItems env rest).items,
         (pre.map fun it => (priceItem env it).totalPrice).sum + (processItems env rest).total,
         (processItems env rest).err,
         (pre.map fun it => Effect.getProductE it.productID) ++ (processItems env rest).trace⟩ := by
  induction pre with
  | nil => simp
  | cons it pre' ih =>
    obtain ⟨p, hg, hs⟩ := hpre it (List.mem_cons_self it pre')
    have ih' := ih fun x hx => hpre x (List.mem_cons_of_mem it hx)
    rw [List.cons_append, processItems_cons_ok env it (pre' ++ rest) p hg hs, ih']
    simp [add_assoc]

lemma processItems_cons_fail (env : Env) (it : OrderProduct) (rest : List OrderProduct)
    (hbad : (∃ e, env.getProduct it.productID = .error e)
      ∨ ∃ p, env.getProduct it.productID = .ok p ∧ p.stock < it.quantity) :
    ∃ err, processItems env (it :: rest)
      = ⟨it :: rest, 0, some err, [.getProductE it.productID]⟩ := by
  rcases hbad with ⟨e, hg⟩ | ⟨p, hg, hs⟩
  · cases e <;> rw [processItems] <;> simp [hg]
  · rw [processItems]
    simp [hg, hs]

lemma enrichItems_trace_read (env : Env) (items : List OrderProduct) :
    ∀ e ∈ (enrichItems env items).2, (∃ i, e = .getProductE i) ∨ (∃ i, e = .getCategoryE i) := by
  induction items with
  | nil => simp [enrichItems]
  | cons it rest ih =>
    intro e he
    rw [enrichItems] at he
    cases hg : env.getProduct it.productID with
    | error err => cases err <;> simp_all
    | ok p =>
      cases hc : env.getCategory p.categoryID with
      | error err =>
        cases err <;> simp only [hg, hc, List.mem_cons, List.not_mem_nil, or_false] at he <;>
          rcases he with rfl | rfl <;>
          first
            | exact Or.inl ⟨_, rfl⟩
            | exact Or.inr ⟨_, rfl⟩
      | ok c =>
        simp only [hg, hc] at he
        rcases hrec : enrichItems env rest with ⟨res, tr⟩
        cases res <;> rw [hrec] at he <;> simp only [List.mem_cons] at he <;>
          rcases he with rfl | rfl | he <;>
          first
            | exact Or.inl ⟨_, rfl⟩
            | exact Or.inr ⟨_, rfl⟩
            | exact ih e (by rw [hrec]; exact he)

lemma enrichItems_err (env : Env) (items : List OrderProduct) :
    ∀ e tr, enrichItems env items = (.error e, tr) → e = .dataNotFound ∨ e = .internal := by
  induction items with
  | nil => simp [enrichItems]
  | cons it rest ih =>
    intro e tr h
    rw [enrichItems] at h
    cases hg : env.getProduct it.productID with
    | error err => cases err <;> simp_all
    | ok p =>
      cases hc : env.getCategory p.categoryID with
      | error err => cases err <;> simp_all
      | ok c =>
        simp only [hg, hc] at h
        rcases hrec : enrichItems env rest with ⟨res, tr'⟩
        cases res <;> rw [hrec] at h <;> simp only [Prod.mk.injEq] at h
        · rcases h with ⟨h1, _⟩
          injection h1 with h1'
          exact h1' ▸ ih _ _ hrec
        · exact absurd h.1 (by simp)

lemma enrichItems_ok_preserve (env : Env) (items items2 : List OrderProduct) (tr : List Effect)
    (h : enrichItems env items = (.ok items2, tr)) :
    List.Forall₂
      (fun a b => b.productID = a.productID ∧ b.quantity = a.quantity ∧ b.totalPrice = a.totalPrice)
      items items2 := by
  induction items generalizing items2 tr with
  | nil => simp [enrichItems] at h; simp [h.1]
  | cons it rest ih =>
    rw [enrichItems] at h
    cases hg : env.getProduct it.productID with
    | error err => cases err <;> simp_all
    | ok p =>
      cases hc : env.getCategory p.categoryID with
      | error err => cases err <;> simp_all
      | ok c =>
        simp only [hg, hc] at h
        rcases hrec : enrichItems env rest with ⟨res, tr'⟩
        cases res <;> rw [hrec] at h <;> simp only [Prod.mk.injEq] at h
        · exact absurd h.1 (by simp)
        · rcases h with ⟨h1, _⟩
          injection h1 with h1'
          rw [← h1']
          exact List.Forall₂.cons (by simp) (ih _ _ hrec)

lemma enrichItems_allOk (env : Env)
    (hgp : ∀ i, ∃ p, env.getProduct i = .ok p)
    (hgc : ∀ i, ∃ c, env.getCategory i = .ok c)
    (items : List OrderProduct) :
    ∃ items2 tr, enrichItems env items = (.ok items2, tr) := by
  induction items with
  | nil => exact ⟨[], [], rfl⟩
  | cons it rest ih =>
    obtain ⟨p, hg⟩ := hgp it.productID
    obtain ⟨c, hc⟩ := hgc p.categoryID
    obtain ⟨items2, tr, hrec⟩ := ih
    refine ⟨{ it with product := some { p with category := some c } } :: items2,
            .getProductE it.productID :: .getCategoryE p.categoryID :: tr, ?_⟩
    rw [enrichItems]
    simp [hg, hc, hrec]

lemma processItems_err_mem (env : Env) (items : List OrderProduct) (e : DomainErr)
    (h : (processItems env items).err = some e) :
    e = .dataNotFound ∨ e = .internal ∨ e = .insufficientStock := by
  induction items with
  | nil => simp [processItems] at h
  | cons it rest ih =>
    rw [processItems] at h
    cases hg : env.getProduct it.productID with
    | error err => cases err <;> simp_all
    | ok p =>
      by_cases hs : p.stock < it.quantity
      · simp_all
      · simp only [hg, hs, if_false] at h
        exact ih h

lemma CreateOrder_valFail (env : Env) (o : Order) (e : DomainErr)
    (h : (processItems env o.products).err = some e) :
    CreateOrder env o
      = ⟨.error e, { o with products := (processItems env o.products).items },
         (processItems env o.products).trace⟩ := by
  unfold CreateOrder
  simp [h]

lemma CreateOrder_payFail (env : Env) (o : Order)
    (h : (processItems env o.products).err = none)
    (hlt : o.totalPaid < (processItems env o.products).total) :
    CreateOrder env o
      = ⟨.error .insufficientPayment, { o with products := (processItems env o.products).items },
         (processItems env o.products).trace⟩ := by
  unfold CreateOrder
  simp [h, hlt]

lemma CreateOrder_err_cases (env : Env) (o : Order) (err : DomainErr)
    (h : (CreateOrder env o).result = .error err) :
    (processItems env o.products).err = some err
    ∨ ((processItems env o.products).err = none ∧ err = .insufficientPayment
        ∧ o.totalPaid < (processItems env o.products).total)
    ∨ ((processItems env o.products).err = none
        ∧ ¬ o.totalPaid < (processItems env o.products).total
        ∧ (err = .dataNotFound ∨ err = .internal)) := by
  unfold CreateOrder at h
  cases hv : (processItems env o.products).err with
  | some e =>
    simp only [hv] at h
    simp at h
    exact Or.inl (by rw [h])
  | none =>
    simp only [hv] at h
    by_cases hlt : o.totalPaid < (processItems env o.products).total
    · simp only [show ({ o with products := (processItems env o.products).items } : Order).totalPaid
          = o.totalPaid from rfl, hlt, if_true] at h
      simp at h
      exact Or.inr (Or.inl ⟨rfl, by rw [h], hlt⟩)
    · simp only [show ({ o with products := (processItems env o.products).items } : Order).totalPaid
          = o.totalPaid from rfl, hlt, if_false] at h
      refine Or.inr (Or.inr ⟨rfl, hlt, ?_⟩)
      split at h
      · simp at h; simp [h]
      · split at h
        · simp at h; simp [h]
        · simp at h; simp [h]
        · split at h
          · simp at h; simp [h]
          · simp at h; simp [h]
          · split at h
            · rename_i e tre heq
              simp at h
              rcases enrichItems_err env _ _ _ heq with h1 | h1 <;> simp [← h, h1]
            · split at h
              · simp at h; simp [h]
              · split at h
                · simp at h; simp [h]
                · split at h
                  · simp at h; simp [h]
                  · simp at h

lemma CreateOrder_ok_inv (env : Env) (o o' : Order)
    (h : (CreateOrder env o).result = .ok o') :
    ∃ o2 u pay items2 tre,
      (processItems env o.products).err = none
      ∧ ¬ o.totalPaid < (processItems env o.products).total
      ∧ env.createOrderRepo
          { o with products := (processItems env o.products).items,
                   totalPrice := (processItems env o.products).total,
                   totalReturn := o.totalPaid - (processItems env o.products).total } = .ok o2
      ∧ env.getUser o2.userID = .ok u
      ∧ env.getPayment o2.paymentID = .ok pay
      ∧ enrichItems env o2.products = (.ok items2, tre)
      ∧ o' = { o2 with user := some u, payment := some pay, products := items2 }
      ∧ (CreateOrder env o).trace
          = (processItems env o.products).trace
            ++ [.createOrderE ({ o with products := (processItems env o.products).items,
                                        totalPrice := (processItems env o.products).total,
                                        totalReturn := o.totalPaid - (processItems env o.products).total }),
                .getUserE o2.userID, .getPaymentE o2.paymentID]
            ++ tre
            ++ [.cacheDeleteByPrefixE "orders:*", .cacheSetE (GenerateCacheKey "order" o'.id) 0] := by
  have hco : CreateOrder env o = CreateOrder env o := rfl
  unfold CreateOrder at h
  cases hv : (processItems env o.products).err with
  | some e => simp [hv] at h
  | none =>
    simp only [hv] at h
    by_cases hlt : o.totalPaid < (processItems env o.products).total
    · simp only [show ({ o with products := (processItems env o.products).items } : Order).totalPaid
          = o.totalPaid from rfl, hlt, if_true] at h
      simp at h
    · simp only [show ({ o with products := (processItems env o.products).items } : Order).totalPaid
          = o.totalPaid from rfl, hlt, if_false] at h
      split at h
      · simp at h
      · rename_i o2 hr
        split at h
        · simp at h
        · simp at h
        · rename_i u hu
          split at h
          · simp at h
          · simp at h
          · rename_i pay hp2
            split at h
            · simp at h
            · rename_i items2 tre henr
              split at h
              · simp at h
              · rename_i uval hdel
                split at h
                · simp at h
                · rename_i bytes hser
                  split at h
                  · simp at h
                  · rename_i uval2 hset
                    simp only [Except.ok.injEq] at h
                    refine ⟨o2, u, pay, items2, tre, rfl, hlt, hr, hu, hp2, ?_, h.symm, ?_⟩
                    · simpa using henr
                    · rw [← h]
                      unfold CreateOrder
                      simp only [hv, hlt, if_false]
                      simp only [hr, hu, hp2]
                      rw [show enrichItems env o2.products = (.ok items2, tre) by simpa using henr]
                      simp [hdel, hser, hset]

lemma CreateOrder_trace_noProductWrite (env : Env) (o : Order) :
    ∀ e ∈ (CreateOrder env o).trace, e.isProductWrite = false := by
  have hA : ∀ x ∈ (processItems env o.products).trace, x.isProductWrite = false := by
    intro x hx
    rcases processItems_trace_read env o.products x hx with ⟨i, rfl⟩
    rfl
  have single : ∀ (a : Effect), a.isProductWrite = false →
      ∀ x ∈ ([a] : List Effect), x.isProductWrite = false := by
    intro a ha x hx
    rw [List.mem_singleton] at hx
    exact hx ▸ ha
  unfold CreateOrder
  cases hv : (processItems env o.products).err with
  | some e' => simpa only [hv] using hA
  | none =>
    simp only [hv]
    by_cases hlt : o.totalPaid < (processItems env o.products).total
    · simp only [show ({ o with products := (processItems env o.products).items } : Order).totalPaid
          = o.totalPaid from rfl, hlt, if_true]
      exact hA
    · simp only [show ({ o with products := (processItems env o.products).items } : Order).totalPaid
          = o.totalPaid from rfl, hlt, if_false]
      split
      · exact List.forall_mem_append.mpr ⟨hA, single _ rfl⟩
      · rename_i o2 hr
        split
        · exact List.forall_mem_append.mpr
            ⟨List.forall_mem_append.mpr ⟨hA, single _ rfl⟩, single _ rfl⟩
        · exact List.forall_mem_append.mpr
            ⟨List.forall_mem_append.mpr ⟨hA, single _ rfl⟩, single _ rfl⟩
        · rename_i u hu
          split
          · exact List.forall_mem_append.mpr
              ⟨List.forall_mem_append.mpr
                ⟨List.forall_mem_append.mpr ⟨hA, single _ rfl⟩, single _ rfl⟩, single _ rfl⟩
          · exact List.forall_mem_append.mpr
              ⟨List.forall_mem_append.mpr
                ⟨List.forall_mem_append.mpr ⟨hA, single _ rfl⟩, single _ rfl⟩, single _ rfl⟩
          · rename_i pay hp2
            split
            · rename_i e' tre henr
              have htre : ∀ x ∈ tre, x.isProductWrite = false := by
                intro x hx
                have hm := enrichItems_trace_read env o2.products x
                rw [henr] at hm
                rcases hm hx with ⟨i, rfl⟩ | ⟨i, rfl⟩ <;> rfl
              exact List.forall_mem_append.mpr
                ⟨List.forall_mem_append.mpr
                  ⟨List.forall_mem_append.mpr
                    ⟨List.forall_mem_append.mpr ⟨hA, single _ rfl⟩, single _ rfl⟩,
                   single _ rfl⟩, htre⟩
            · rename_i items2 tre henr
              have htre : ∀ x ∈ tre, x.isProductWrite = false := by
                intro x hx
                have hm := enrichItems_trace_read env o2.products x
                rw [henr] at hm
                rcases hm hx with ⟨i, rfl⟩ | ⟨i, rfl⟩ <;> rfl
              have h5 : ∀ x ∈ (processItems env o.products).trace
                    ++ [Effect.createOrderE ({ o with
                          products := (processItems env o.products).items,
                          totalPrice := (processItems env o.products).total,
                          totalReturn := o.totalPaid - (processItems env o.products).total })]
                    ++ [Effect.getUserE o2.userID] ++ [Effect.getPaymentE o2.paymentID]
                    ++ tre ++ [Effect.cacheDeleteByPrefixE "orders:*"],
                  x.isProductWrite = false :=
                List.forall_mem_append.mpr
                  ⟨List.forall_mem_append.mpr
                    ⟨List.forall_mem_append.mpr
                      ⟨List.forall_mem_append.mpr
                        ⟨List.forall_mem_append.mpr ⟨hA, single _ rfl⟩, single _ rfl⟩,
                       single _ rfl⟩, htre⟩, single _ rfl⟩
              split
              · exact h5
              · split
                · exact h5
                · split
                  · exact List.forall_mem_append.mpr ⟨h5, single _ rfl⟩
                  · exact List.forall_mem_append.mpr ⟨h5, single _ rfl⟩

/-- An environment in which every collaborator call `CreateOrder` can
issue succeeds. -/
structure Env.AllOk (env : Env) : Prop where
  repo : ∀ o, ∃ o', env.createOrderRepo o = .ok o'
  user : ∀ i, ∃ u, env.getUser i = .ok u
  payment : ∀ i, ∃ p, env.getPayment i = .ok p
  product : ∀ i, ∃ p, env.getProduct i = .ok p
  category : ∀ i, ∃ c, env.getCategory i = .ok c
  delPre : ∀ s, env.cacheDeleteByPrefixCall s = .ok ()
  ser : ∀ o, ∃ s, env.serializeOrder o = .ok s
  setOk : ∀ k b t, env.cacheSet k b t = .ok ()

/-- The order repository stores what it is given: `INSERT ... RETURNING`
hands back the inserted row, so the monetary fields and the line items of
the returned order are those of the argument (spec §1 treats the SQL
layer as a faithful store; only the assigned identity is new). -/
def Env.repoFaithful (env : Env) : Prop :=
  ∀ o o', env.createOrderRepo o = .ok o' →
    o'.products = o.products ∧ o'.totalPrice = o.totalPrice
    ∧ o'.totalPaid = o.totalPaid ∧ o'.totalReturn = o.totalReturn

lemma CreateOrder_allOk_success (env : Env) (o : Order) (hok : Env.AllOk env)
    (hv : (processItems env o.products).err = none)
    (hp : ¬ o.totalPaid < (processItems env o.products).total) :
    ∃ o', (CreateOrder env o).result = .ok o' := by
  unfold CreateOrder
  simp only [hv]
  simp only [show ({ o with products := (processItems env o.products).items } : Order).totalPaid
      = o.totalPaid from rfl, hp, if_false]
  obtain ⟨o2, hr⟩ := hok.repo
    { o with products := (processItems env o.products).items,
             totalPrice := (processItems env o.products).total,
             totalReturn := o.totalPaid - (processItems env o.products).total }
  simp only [hr]
  obtain ⟨u, hu⟩ := hok.user o2.userID
  simp only [hu]
  obtain ⟨pay, hpy⟩ := hok.payment o2.paymentID
  simp only [hpy]
  obtain ⟨items2, tre, henr⟩ := enrichItems_allOk env hok.product hok.category o2.products
  simp only [show ({ o2 with user := some u, payment := some pay } : Order).products
      = o2.products from rfl, henr]
  simp only [hok.delPre "orders:*"]
  obtain ⟨s, hser⟩ := hok.ser
    { o2 with user := some u, payment := some pay, products := items2 }
  simp only [show ({ ({ o2 with user := some u, payment := some pay } : Order) with
        products := items2 } : Order)
      = { o2 with user := some u, payment := some pay, products := items2 } from rfl, hser]
  simp only [hok.setOk]
  exact ⟨_, rfl⟩

lemma applyProductWrite_noWrites (ps : Nat → Option Product) (tr : List Effect)
    (h : ∀ e ∈ tr, e.isProductWrite = false) :
    tr.foldl applyProductWrite ps = ps := by
  induction tr generalizing ps with
  | nil => rfl
  | cons e tr ih =>
    have he := h e (List.mem_cons_self e tr)
    have hid : applyProductWrite ps e = ps := by
      cases e <;> simp_all [applyProductWrite, Effect.isProductWrite]
    rw [List.foldl_cons, hid]
    exact ih ps fun x hx => h x (List.mem_cons_of_mem _ hx)

lemma forall2_exists_left {α β : Type} {R : α → β → Prop} {as : List α} {bs : List β}
    (h : List.Forall₂ R as bs) : ∀ b ∈ bs, ∃ a ∈ as, R a b := by
  induction h with
  | nil => simp
  | cons h1 h2 ih =>
    intro b hb
    rcases List.mem_cons.mp hb with rfl | hb
    · exact ⟨_, List.mem_cons_self _ _, h1⟩
    · rcases ih b hb with ⟨a, ha, hr⟩
      exact ⟨a, List.mem_cons_of_mem _ ha, hr⟩

lemma forall2_totalPrice_map (as bs : List OrderProduct)
    (h : List.Forall₂
      (fun a b => b.productID = a.productID ∧ b.quantity = a.quantity ∧ b.totalPrice = a.totalPrice)
      as bs) :
    bs.map OrderProduct.totalPrice = as.map OrderProduct.totalPrice := by
  induction h with
  | nil => rfl
  | cons h1 h2 ih => simp [h1.2.2, ih]

/-- C1: an order containing a line item whose quantity strictly exceeds
its product's stock makes `CreateOrder` fail with `insufficientStock`,
with no store or cache mutation whatsoever; a quantity equal to the stock
passes the check (the comparison is strict: `product.Stock <
orderProduct.Quantity`). -/
theorem claim_C1 (env : Env) (order : Order)
    (hall : ∀ it ∈ order.products, ∃ p, env.getProduct it.productID = .ok p) :
    ((∃ it ∈ order.products, ∀ p, env.getProduct it.productID = .ok p → p.stock < it.quantity) →
        (CreateOrder env order).result = .error .insufficientStock
        ∧ writesOf (CreateOrder env order).trace = [])
    ∧ ((∀ it ∈ order.products, ∀ p, env.getProduct it.productID = .ok p → ¬ p.stock < it.quantity) →
        (CreateOrder env order).result ≠ .error .insufficientStock) := by
  constructor
  · intro hex
    have herr := processItems_stockFail env order.products hall hex
    have hco := CreateOrder_valFail env order _ herr
    rw [hco]
    exact ⟨rfl, processItems_writes env order.products⟩
  · intro hps hcon
    rcases CreateOrder_err_cases env order _ hcon with h1 | h2 | h3
    · have hnone : (processItems env order.products).err = none := by
        refine processItems_allPass env order.products fun it hit => ?_
        obtain ⟨p, hp⟩ := hall it hit
        exact ⟨p, hp, hps it hit p hp⟩
      rw [hnone] at h1
      cases h1
    · exact absurd h2.2.1 (by simp)
    · rcases h3.2.2 with h | h <;> cases h

/-- C2: with all stock checks passing, `CreateOrder` fails with
`insufficientPayment` exactly when `totalPaid` is strictly below the
computed total, mutating nothing in that case; at the boundary
(`totalPaid` equal to the total) creation succeeds (given collaborators
that succeed and a repository that stores what it is given) with zero
`totalReturn`; and every successful result carries
`totalReturn = totalPaid - totalPrice`. -/
theorem claim_C2 (env : Env) (order : Order)
    (hv : (processItems env order.products).err = none) :
    (order.totalPaid < (processItems env order.products).total →
        (CreateOrder env order).result = .error .insufficientPayment
        ∧ writesOf (CreateOrder env order).trace = [])
    ∧ ((CreateOrder env order).result = .error .insufficientPayment →
        order.totalPaid < (processItems env order.products).total)
    ∧ (env.repoFaithful → ∀ o', (CreateOrder env order).result = .ok o' →
        o'.totalReturn = o'.totalPaid - o'.totalPrice)
    ∧ (Env.AllOk env → env.repoFaithful →
        order.totalPaid = (processItems env order.products).total →
        ∃ o', (CreateOrder env order).result = .ok o' ∧ o'.totalReturn = 0) := by
  refine ⟨?_, ?_, ?_, ?_⟩
  · intro hlt
    have hco := CreateOrder_payFail env order hv hlt
    rw [hco]
    exact ⟨rfl, processItems_writes env order.products⟩
  · intro hcon
    rcases CreateOrder_err_cases env order _ hcon with h1 | h2 | h3
    · rw [hv] at h1; cases h1
    · exact h2.2.2
    · rcases h3.2.2 with h | h <;> cases h
  · intro hrf o' hres
    obtain ⟨o2, u, pay, items2, tre, _, _, hr, _, _, _, ho', _⟩ :=
      CreateOrder_ok_inv env order o' hres
    obtain ⟨_, hP, hPd, hR⟩ := hrf _ _ hr
    rw [ho']
    show o2.totalReturn = o2.totalPaid - o2.totalPrice
    rw [hP, hPd, hR]
  · intro hok hrf heq
    obtain ⟨o', hres⟩ := CreateOrder_allOk_success env order hok hv (by rw [← heq]; simp)
    refine ⟨o', hres, ?_⟩
    obtain ⟨o2, u, pay, items2, tre, _, _, hr, _, _, _, ho', _⟩ :=
      CreateOrder_ok_inv env order o' hres
    obtain ⟨_, hP, hPd, hR⟩ := hrf _ _ hr
    rw [ho']
    show o2.totalReturn = 0
    rw [hR]
    simp [heq]

/-- C3: on every successful creation (with a repository that stores what
it is given), each returned line item's total equals the product's unit
price as fetched from the product repository at submission time
multiplied by the requested quantity, and the order's `totalPrice` is
the sum of the line totals. -/
theorem claim_C3 (env : Env) (order o' : Order) (hrf : env.repoFaithful)
    (hres : (CreateOrder env order).result = .ok o') :
    (∀ it ∈ o'.products, ∀ p, env.getProduct it.productID = .ok p →
        it.totalPrice = p.price * (it.quantity : ℚ))
    ∧ o'.totalPrice = (o'.products.map OrderProduct.totalPrice).sum := by
  obtain ⟨o2, u, pay, items2, tre, hv, _, hr, _, _, henr, ho', _⟩ :=
    CreateOrder_ok_inv env order o' hres
  obtain ⟨hitems, htot, hpass⟩ := processItems_ok env order.products hv
  obtain ⟨hprod, hP, _, _⟩ := hrf _ _ hr
  have hprod' : o2.products = order.products.map (priceItem env) := by
    rw [← hitems]
    simpa using hprod
  have hF := enrichItems_ok_preserve env o2.products items2 tre henr
  have hop : o'.products = items2 := by rw [ho']
  constructor
  · intro it2 hit2 p hp
    obtain ⟨it1, hit1, hR⟩ := forall2_exists_left hF it2 (by rw [← hop]; exact hit2)
    rw [hprod'] at hit1
    obtain ⟨it0, hit0, rfl⟩ := List.mem_map.mp hit1
    obtain ⟨p0, hp0, _⟩ := hpass it0 hit0
    have hpi : priceItem env it0
        = { it0 with totalPrice := p0.price * (it0.quantity : ℚ) } := by
      unfold priceItem
      rw [hp0]
    obtain ⟨hid, hq, htp⟩ := hR
    rw [hpi] at hid hq htp
    simp only at hid hq htp
    rw [hid, hp0] at hp
    injection hp with hp
    rw [htp, hq, ← hp]
  · have h1 : o'.totalPrice = o2.totalPrice := by rw [ho']
    have h2 : o2.totalPrice = (processItems env order.products).total := by
      simpa using hP
    rw [h1, h2, htot, hop, forall2_totalPrice_map _ _ hF, hprod', List.map_map]
    rfl

/-- C4: no execution of `CreateOrder` issues any write to the product
repository: the trace contains no product-store mutation, so folding the
trace's semantics over any product table leaves it (and in particular
every referenced product's stock) unchanged. -/
theorem claim_C4 (env : Env) (order : Order) (ps : Nat → Option Product) :
    (CreateOrder env order).trace.filter Effect.isProductWrite = []
    ∧ (CreateOrder env order).trace.foldl applyProductWrite ps = ps := by
  have h := CreateOrder_trace_noProductWrite env order
  constructor
  · rw [List.filter_eq_nil_iff]
    intro e he
    simp [h e he]
  · exact applyProductWrite_noWrites ps _ h

/-- A concrete product fixture: stock 5, unit price 10. -/
def productC : Product :=
  { id := 1, categoryID := 4, name := "beans", stock := 5, price := 10 }

/-- A concrete environment whose collaborators all succeed; the order
repository assigns id 99 and otherwise stores its argument. -/
def envAll : Env where
  getProduct := fun _ => .ok productC
  createOrderRepo := fun o => .ok { o with id := 99 }
  getUser := fun i => .ok { id := i }
  getPayment := fun i => .ok { id := i }
  getCategory := fun i => .ok { id := i, name := "food" }
  getOrderRepo := fun _ => .error .notFound
  updateCategoryRepo := fun c => .ok c
  cacheGet := fun _ => .error ()
  cacheSet := fun _ _ _ => .ok ()
  cacheDelete := fun _ => .ok ()
  cacheDeleteByPrefixCall := fun _ => .ok ()
  serializeOrder := fun _ => .ok "blob"
  deserializeOrder := fun _ => .error ()
  serializeCategory := fun _ => .ok "blob"

/-- As `envAll` but the post-write user read fails. -/
def envUserFail : Env := { envAll with getUser := fun _ => .error .other }

/-- As `envAll` but the cache reports a hit whose bytes the codec cannot
decode. -/
def envCacheHit : Env := { envAll with cacheGet := fun _ => .ok "junk" }

/-- A concrete order: one line item of quantity 3 on product 1, paid 40. -/
def order0 : Order :=
  { id := 0, userID := 2, paymentID := 3,
    products := [{ productID := 1, quantity := 3 }], totalPaid := 40 }

/-- The order `CreateOrder envAll order0` returns. -/
def createdOrder0 : Order :=
  { id := 99, userID := 2, paymentID := 3,
    products := [{ productID := 1, quantity := 3, totalPrice := 30,
                   product := some { productC with category := some { id := 4, name := "food" } } }],
    totalPrice := 30, totalPaid := 40, totalReturn := 10,
    user := some { id := 2 }, payment := some { id := 3 } }

lemma envAll_allOk : Env.AllOk envAll := by
  constructor <;> intro i <;> first | exact ⟨_, rfl⟩ | (intros; exact rfl)

lemma envAll_repoFaithful : envAll.repoFaithful := by
  intro o o' h
  injection h with h
  rw [← h]
  exact ⟨rfl, rfl, rfl, rfl⟩

/-- Whether an effect is the order-repository insert. -/
def isOrderInsert : Effect → Bool
  | .createOrderE _ => true
  | _ => false

/-- C5: there is an execution in which the order has been durably
persisted through the order repository and yet `CreateOrder` returns an
error to the caller — here the post-write user read fails.  The trace
contains the order insert (which, in this environment, always succeeds:
third conjunct), the result is `internal`, and nothing in the flow undoes
the insert. -/
theorem claim_C5 :
    (CreateOrder envUserFail order0).result = .error .internal
    ∧ (CreateOrder envUserFail order0).trace.any isOrderInsert = true
    ∧ envUserFail.createOrderRepo = fun o => .ok { o with id := 99 } := by
  refine ⟨?_, ?_, rfl⟩ <;> with_unfolding_all decide

/-- C6: every successful `CreateOrder` run ends its effect trace with the
prefix-delete of the `"orders:*"` collection keys followed by the cache
set of the enriched order under its id's key with TTL 0 — both cache
operations were performed, in that order. -/
theorem claim_C6 (env : Env) (order o' : Order)
    (h : (CreateOrder env order).result = .ok o') :
    ∃ pre, (CreateOrder env order).trace
      = pre ++ [.cacheDeleteByPrefixE "orders:*",
                .cacheSetE (GenerateCacheKey "order" o'.id) 0] := by
  obtain ⟨o2, u, pay, items2, tre, _, _, _, _, _, _, _, htr⟩ :=
    CreateOrder_ok_inv env order o' h
  exact ⟨_, htr⟩

theorem claim_C6_witness :
    (CreateOrder envAll order0).result = .ok createdOrder0
    ∧ ∃ pre, (CreateOrder envAll order0).trace
        = pre ++ [.cacheDeleteByPrefixE "orders:*",
                  .cacheSetE (GenerateCacheKey "order" createdOrder0.id) 0] :=
  ⟨by with_unfolding_all decide,
   claim_C6 envAll order0 createdOrder0 (by with_unfolding_all decide)⟩

/-- C7: when the cache lookup for the order key succeeds, `GetOrder`
either returns the deserialized order at once or fails with `internal`
if deserialization fails; in both cases the only external call is the
cache get — no repository read, no cache write, no fallback. -/
theorem claim_C7 (env : Env) (id : Nat) (s : String)
    (hhit : env.cacheGet (GenerateCacheKey "order" id) = .ok s) :
    (∀ o, env.deserializeOrder s = .ok o →
        GetOrder env id = (.ok o, [.cacheGetE (GenerateCacheKey "order" id)]))
    ∧ (env.deserializeOrder s = .error () →
        GetOrder env id = (.error .internal, [.cacheGetE (GenerateCacheKey "order" id)])) := by
  constructor
  · intro o hdes
    unfold GetOrder
    simp [hhit, hdes]
  · intro hdes
    unfold GetOrder
    simp [hhit, hdes]

theorem claim_C7_witness :
    GetOrder envCacheHit 5 = (.error .internal, [.cacheGetE (GenerateCacheKey "order" 5)]) :=
  (claim_C7 envCacheHit 5 "junk" rfl).2 rfl

/-- C8: `UpdateCategory` on an existing category whose incoming name is
empty or identical to the stored name returns `noUpdatedData`, and its
trace contains no repository write and no cache mutation (the only call
issued is the category read). -/
theorem claim_C8 (env : Env) (category existingCategory : Category)
    (hg : env.getCategory category.id = .ok existingCategory)
    (hcond : category.name = "" ∨ existingCategory.name = category.name) :
    (UpdateCategory env category).1 = .error .noUpdatedData
    ∧ writesOf (UpdateCategory env category).2 = [] := by
  have hb : (category.name == "" || existingCategory.name == category.name) = true := by
    rcases hcond with h | h <;> simp [h]
  unfold UpdateCategory
  simp [hg, hb, writesOf, Effect.isWrite]

theorem claim_C8_witness :
    (UpdateCategory envAll ⟨7, "food"⟩).1 = .error .noUpdatedData
    ∧ writesOf (UpdateCategory envAll ⟨7, "food"⟩).2 = [] :=
  claim_C8 envAll ⟨7, "food"⟩ ⟨7, "food"⟩ rfl (Or.inr rfl)

/-- C9: `ListPayments` computes its SQL OFFSET as `(skip - 1) * limit` in
wrapping `uint64` arithmetic, so `skip` is a 1-based page number
(`skip = s` with `s ≥ 1` yields offset `(s-1)*limit`) and `skip = 0`
with a positive limit wraps around to the huge offset `2^64 - limit`,
an effectively empty page. -/
theorem claim_C9 :
    (∀ limit : Nat, 0 < limit → limit < 2 ^ 64 →
        ListPaymentsOffset 0 limit = 2 ^ 64 - limit)
    ∧ ∀ skip limit : Nat, 0 < skip → skip < 2 ^ 64 → (skip - 1) * limit < 2 ^ 64 →
        ListPaymentsOffset skip limit = (skip - 1) * limit := by
  constructor
  · intro limit h1 h2
    have hs : usub64 0 1 = 2 ^ 64 - 1 := by decide
    unfold ListPaymentsOffset umul64
    rw [hs]
    rw [show (2 : Nat) ^ 64 = 18446744073709551616 from by norm_num] at h2 ⊢
    omega
  · intro skip limit h1 h2 h3
    have hs : usub64 skip 1 = skip - 1 := by
      unfold usub64
      rw [show ((2 : Int) ^ 64) = 18446744073709551616 from by norm_num]
      rw [show (2 : Nat) ^ 64 = 18446744073709551616 from by norm_num] at h2
      omega
    unfold ListPaymentsOffset umul64
    rw [hs]
    exact Nat.mod_eq_of_lt h3

theorem claim_C9_witness :
    ListPaymentsOffset 0 10 = 2 ^ 64 - 10 ∧ ListPaymentsOffset 3 7 = 14 := by
  constructor
  · exact claim_C9.1 10 (by norm_num) (by norm_num)
  · have h := claim_C9.2 3 7 (by norm_num) (by norm_num) (by norm_num)
    norm_num at h
    exact h

/-- C10: `CreateOrder` mutates the caller's order during validation.  If
a later line item fails (product fetch error or stock failure), every
earlier item already carries its computed `TotalPrice` in the caller's
order while the failing item and its successors are untouched and no
store or cache write has happened; if instead the whole pass succeeds and
the payment check fails, every line item of the caller's order has been
mutated, again with no store write. -/
theorem claim_C10 :
    (∀ (env : Env) (order : Order) (pre : List OrderProduct) (bad : OrderProduct)
        (rest : List OrderProduct),
        order.products = pre ++ bad :: rest →
        (∀ it ∈ pre, passes env it) →
        ((∃ e, env.getProduct bad.productID = .error e)
          ∨ ∃ p, env.getProduct bad.productID = .ok p ∧ p.stock < bad.quantity) →
        ∃ err, (CreateOrder env order).result = .error err
          ∧ (CreateOrder env order).caller.products = pre.map (priceItem env) ++ bad :: rest
          ∧ writesOf (CreateOrder env order).trace = [])
    ∧ ∀ (env : Env) (order : Order),
        (processItems env order.products).err = none →
        order.totalPaid < (processItems env order.products).total →
        (CreateOrder env order).result = .error .insufficientPayment
          ∧ (CreateOrder env order).caller.products = order.products.map (priceItem env)
          ∧ writesOf (CreateOrder env order).trace = [] := by
  constructor
  · intro env order pre bad rest hsplit hpre hbad
    obtain ⟨err, hfail⟩ := processItems_cons_fail env bad rest hbad
    have herr : (processItems env order.products).err = some err := by
      rw [hsplit, processItems_append_ok env pre (bad :: rest) hpre]
      simp [hfail]
    have hitems : (processItems env order.products).items
        = pre.map (priceItem env) ++ bad :: rest := by
      rw [hsplit, processItems_append_ok env pre (bad :: rest) hpre]
      simp [hfail]
    have hco := CreateOrder_valFail env order err herr
    refine ⟨err, by rw [hco], ?_, ?_⟩
    · rw [hco]
      simpa using hitems
    · rw [hco]
      exact processItems_writes env order.products
  · intro env order hv hlt
    have hco := CreateOrder_payFail env order hv hlt
    obtain ⟨hitems, _, _⟩ := processItems_ok env order.products hv
    refine ⟨by rw [hco], ?_, ?_⟩
    · rw [hco]
      simpa using hitems
    · rw [hco]
      exact processItems_writes env order.products

/-- A two-item order whose second line item exceeds the stock. -/
def orderTwoItems : Order :=
  { id := 0, userID := 2, paymentID := 3,
    products := [{ productID := 1, quantity := 3 }, { productID := 1, quantity := 6 }],
    totalPaid := 100 }

/-- A one-item order paid below its computed total. -/
def orderUnderPaid : Order :=
  { id := 0, userID := 2, paymentID := 3,
    products := [{ productID := 1, quantity := 3 }], totalPaid := 20 }

theorem claim_C10_witness :
    (∃ err, (CreateOrder envAll orderTwoItems).result = .error err
      ∧ (CreateOrder envAll orderTwoItems).caller.products
          = ([{ productID := 1, quantity := 3 }] : List OrderProduct).map (priceItem envAll)
            ++ ({ productID := 1, quantity := 6 } : OrderProduct) :: []
      ∧ writesOf (CreateOrder envAll orderTwoItems).trace = [])
    ∧ ((CreateOrder envAll orderUnderPaid).result = .error .insufficientPayment
      ∧ (CreateOrder envAll orderUnderPaid).caller.products
          = orderUnderPaid.products.map (priceItem envAll)
      ∧ writesOf (CreateOrder envAll orderUnderPaid).trace = []) :=
  ⟨claim_C10.1 envAll orderTwoItems [{ productID := 1, quantity := 3 }]
      { productID := 1, quantity := 6 } [] rfl
      (by intro it hit
          rw [List.mem_singleton] at hit
          subst hit
          exact ⟨productC, rfl, by decide⟩)
      (Or.inr ⟨productC, rfl, by decide⟩),
   claim_C10.2 envAll orderUnderPaid (by with_unfolding_all decide)
      (by with_unfolding_all decide)⟩

/-- A one-item order requesting quantity 6 against stock 5. -/
def orderOver : Order :=
  { id := 0, userID := 2, paymentID := 3,
    products := [{ productID := 1, quantity := 6 }], totalPaid := 100 }

theorem claim_C1_witness :
    (CreateOrder envAll orderOver).result = .error .insufficientStock
    ∧ writesOf (CreateOrder envAll orderOver).trace = [] :=
  (claim_C1 envAll orderOver (fun _ _ => ⟨productC, rfl⟩)).1
    ⟨{ productID := 1, quantity := 6 }, by with_unfolding_all decide,
     by intro p hp
        simp only [envAll] at hp
        injection hp with hp
        rw [← hp]
        decide⟩

/-- A one-item order paid exactly its computed total. -/
def orderExact : Order :=
  { id := 0, userID := 2, paymentID := 3,
    products := [{ productID := 1, quantity := 3 }], totalPaid := 30 }

theorem claim_C2_witness :
    ∃ o', (CreateOrder envAll orderExact).result = .ok o' ∧ o'.totalReturn = 0 :=
  (claim_C2 envAll orderExact (by with_unfolding_all decide)).2.2.2
    envAll_allOk envAll_repoFaithful (by with_unfolding_all decide)

theorem claim_C3_witness :
    (∀ it ∈ createdOrder0.products, ∀ p, envAll.getProduct it.productID = .ok p →
        it.totalPrice = p.price * (it.quantity : ℚ))
    ∧ createdOrder0.totalPrice = (createdOrder0.products.map OrderProduct.totalPrice).sum :=
  claim_C3 envAll order0 createdOrder0 envAll_repoFaithful (by with_unfolding_all decide)
